import Mathlib

/-!
Shallow embedding of the tool sst-compare-redfish-os.py.

The tool gathers Intel SST configuration from a BMC via Redfish and from the
Linux intel-speed-select driver, and compares field by field.  The embedding
translates the pure comparison logic of the script: Python dicts become
association lists, Python sets become canonically sorted duplicate-free lists,
the fallible pieces (KeyError, ValueError, RuntimeError) become Except values,
and the module-level success flag is threaded explicitly through the
comparison calls.
-/

deriving instance DecidableEq for Except

namespace SstCompare

/-- Numeric value of a list of decimal digit characters, as Python int() reads
a digit string. -/
def natOfDigits (ds : List Char) : Nat :=
  ds.foldl (fun a c => 10 * a + (c.toNat - 48)) 0

/-- Model of Python int() applied to a string: an optional sign followed by a
nonempty run of decimal digits parses; anything else raises ValueError,
modelled as an error result. -/
def pyInt (s : String) : Except String Int :=
  let parse : List Char → Except String Int := fun cs =>
    if cs ≠ [] ∧ cs.all Char.isDigit then
      .ok (Int.ofNat (natOfDigits cs))
    else
      .error ("invalid literal for int: " ++ s)
  match s.toList with
  | '-' :: rest => (parse rest).map (fun n => -n)
  | '+' :: rest => parse rest
  | cs => parse cs

/-- Ordered duplicate-free insertion used to give Python sets of integers a
canonical list form, so that structural equality of the canonical forms is
exactly Python set equality. -/
def setInsert (x : Int) : List Int → List Int
  | [] => [x]
  | y :: ys => if x < y then x :: y :: ys else if x = y then y :: ys else y :: setInsert x ys

/-- Canonical form of the Python set built from a list of integers. -/
def pySet (l : List Int) : List Int :=
  l.foldl (fun acc x => setInsert x acc) []

/-- Model of the Python str.split method with a one-character separator; it
always returns a nonempty list, and splitting the empty string yields one
empty piece, as in Python. -/
def splitChar (sep : Char) : List Char → List (List Char)
  | [] => [[]]
  | c :: cs =>
    let r := splitChar sep cs
    if c = sep then [] :: r
    else
      match r with
      | [] => [[c]]
      | h :: t => (c :: h) :: t

/-- ASCII lowering of one character, as Python str.lower acts on the ASCII
strings handled by the tool. -/
def asciiLower (c : Char) : Char :=
  if 'A' ≤ c ∧ c ≤ 'Z' then Char.ofNat (c.toNat + 32) else c

/-- Model of Python str.lower on ASCII strings. -/
def pyLower (s : String) : String :=
  String.mk (s.toList.map asciiLower)

/-- Model of Python str.startswith, used for the anchored key patterns. -/
def strHasPre (pre s : String) : Bool :=
  pre.toList.isPrefixOf s.toList

/-- Model of the Python regex re.match applied to a pattern of the shape
TAG(\d+): it requires the literal tag at the start of the string, then a
nonempty maximal run of digits (trailing characters are ignored, since
re.match does not anchor the end), and returns the captured digit run. -/
def reTagDigits (tag : List Char) (s : List Char) : Option (List Char) :=
  if tag.isPrefixOf s then
    let run := (s.drop tag.length).takeWhile Char.isDigit
    if run.isEmpty then none else some run
  else none

/-- Whether a list of characters starts with a decimal digit. -/
def isDigitHead : List Char → Bool
  | [] => false
  | c :: _ => c.isDigit

/-- Whether the given tag occurs at the head of the string, immediately
followed by a decimal digit; this is the condition for the regex fragment
TAG(\d+) to match at the current position. -/
def tagHere (tag s : List Char) : Bool :=
  tag.isPrefixOf s && isDigitHead (s.drop tag.length)

/-- Leftmost position where the tag occurs followed by a digit; returns the
suffix just after the tag.  This is how the regex engine picks the starting
point of a search for a pattern beginning with a literal tag. -/
def findFirstTag (tag : List Char) : List Char → Option (List Char)
  | [] => none
  | c :: cs =>
    if tagHere tag (c :: cs) then some ((c :: cs).drop tag.length)
    else findFirstTag tag cs

/-- Rightmost position where the tag occurs followed by a digit; returns the
suffix just after the tag.  A greedy dot-star before a literal tag makes the
regex engine commit to the last such occurrence. -/
def findLastTag (tag : List Char) : List Char → Option (List Char)
  | [] => none
  | c :: cs =>
    match findLastTag tag cs with
    | some r => some r
    | none =>
      if tagHere tag (c :: cs) then some ((c :: cs).drop tag.length)
      else none

/-- The literal before the logical thread number in the driver debug output. -/
def logicalTag : List Char := "logical_cpu:".toList

/-- The literal before the physical core number in the driver debug output. -/
def punitTag : List Char := "punit_core:".toList

/-- Model of re.search applied to the pattern
logical_cpu:(\d+).*punit_core:(\d+) on one line of intel-speed-select debug
output: the first group is the digit run after the leftmost logical_cpu tag
followed by a digit, the second group is the digit run after the last
punit_core tag followed by a digit that starts after that first digit run. -/
def extractPair (line : List Char) : Option (Nat × Nat) :=
  match findFirstTag logicalTag line with
  | none => none
  | some rest =>
    let run := rest.takeWhile Char.isDigit
    let rest2 := rest.dropWhile Char.isDigit
    match findLastTag punitTag rest2 with
    | none => none
    | some rest3 => some (natOfDigits run, natOfDigits (rest3.takeWhile Char.isDigit))

/-- One line of the loop in get_linux_output that populates linux_cpu_map: a
line with no regex match leaves the dict unchanged, a match binds the logical
thread number to the physical core number, overwriting any earlier binding.
The dict is modelled as an association list where the newest binding is
consulted first. -/
def processLine (m : List (Int × Int)) (line : List Char) : List (Int × Int) :=
  match extractPair line with
  | none => m
  | some nm => ((nm.1 : Int), (nm.2 : Int)) :: m

/-- The linux_cpu_map construction loop of get_linux_output: the captured
standard output is split on newlines and each line is scanned in order. -/
def buildCpuMap (stdout : String) : List (Int × Int) :=
  (splitChar '\n' stdout.toList).foldl processLine []

/-- One bucket of the local turbo-ratio-limits-sse table; the tool reports
both fields as decimal strings. -/
structure Bucket where
  coreCount : String
  maxTurboFrequency : String
deriving DecidableEq

/-- The optional local sub-object speed-select-base-freq-properties. -/
structure BFProps where
  highPriorityBaseFrequency : String
  highPriorityCpuList : String
  lowPriorityBaseFrequency : String
deriving DecidableEq

/-- The fields of one local perf-profile-level record that compare_config
reads; bfProps is the optional speed-select-base-freq-properties sub-object,
turboRatioLimitsSse the bucket dictionary in its given key order. -/
structure LinuxConfig where
  baseFrequency : String
  bfProps : Option BFProps
  tjunctionMax : String
  turboRatioLimitsSse : List (String × Bucket)
  thermalDesignPower : String
  enableCpuCount : String
  speedSelectBaseFreq : String
deriving DecidableEq

/-- One entry of the remote BaseSpeedPrioritySettings list. -/
structure BFEntry where
  BaseSpeedMHz : Int
  CoreIDs : List Int
deriving DecidableEq

/-- One entry of the remote TurboProfile list. -/
structure TurboEntry where
  ActiveCoreCount : Int
  MaxSpeedMHz : Int
deriving DecidableEq

/-- The fields of one remote OperatingConfig resource that compare_config
reads. -/
structure RedfishConfig where
  Id : String
  BaseSpeedMHz : Int
  BaseSpeedPrioritySettings : List BFEntry
  MaxJunctionTemperatureCelsius : Int
  MaxSpeedMHz : Int
  TDPWatts : Int
  TotalAvailableCoreCount : Int
  TurboProfile : List TurboEntry
deriving DecidableEq

/-- A value stored under one key of a local package record: either a plain
string field or a nested perf-profile-level object. -/
inductive PV where
  | s (v : String)
  | cfg (c : LinuxConfig)
deriving DecidableEq

/-- The comparable values handed to the field comparator: Python integers,
strings, sets of integers (in canonical pySet form), lists of integer pairs,
and nested objects. -/
inductive Value where
  | vInt (i : Int)
  | vStr (s : String)
  | vIntSet (s : List Int)
  | vPairsII (l : List (Int × Int))
  | vCfg (c : LinuxConfig)
deriving DecidableEq

/-- Injection of a package-record field into a comparable value. -/
def pvToValue : PV → Value
  | .s v => .vStr v
  | .cfg c => .vCfg c

/-- The fields of one remote Processor resource that main reads. -/
structure Processor where
  Id : String
  StatusState : String
  AppliedConfigOdataId : String
  BaseSpeedPriorityState : String
  HighSpeedCoreIDs : List Int
  OperatingConfigsCount : Int
  OperatingConfigs : List RedfishConfig
deriving DecidableEq

/-- One printed comparison: the label, both values, and whether the mismatch
marker was printed for it. -/
structure Comp where
  desc : String
  redfishVal : Value
  linuxVal : Value
  mismatch : Bool
deriving DecidableEq

/-- Python dictionary indexing: a missing key raises KeyError, modelled as an
error result. -/
def dictGet (d : List (String × β)) (k : String) : Except String β :=
  match d.lookup k with
  | some v => .ok v
  | none => .error ("KeyError: " ++ k)

/-- Indexing into a package-record field that must be a nested object; a
plain string there would make the subsequent Python indexing raise. -/
def asCfg : PV → Except String LinuxConfig
  | .cfg c => .ok c
  | .s _ => .error "TypeError: string is not subscriptable"

/-- The compare function of the script.  It prints the mismatch marker
exactly when the two values differ, but it does NOT change the module-level
success flag: the function body declares global status (a name that exists
nowhere) while assigning success, so that assignment creates a function-local
variable and the module-level flag passes through unchanged.  The returned
pair is (module-level flag after the call, whether the mismatch marker was
printed). -/
def compare (redfish_val linux_val : Value) (success : Bool) : Bool × Bool :=
  (success, decide (redfish_val ≠ linux_val))

/-- Threads one compare call through the run state: the flag is passed to
compare and the printed comparison line is appended to the transcript. -/
def runCompare (st : Bool × List Comp) (redfish_val linux_val : Value) (d : String) :
    Bool × List Comp :=
  let r := compare redfish_val linux_val st.1
  (r.1, st.2 ++ [⟨d, redfish_val, linux_val, r.2⟩])

/-- The keys of a local package mapping that match the anchored regex pattern
package-NUM:.* — equivalently, the keys starting with package-NUM: — in
their dictionary order. -/
def keysMatching (linux_data : List (String × α)) (num : String) : List String :=
  (linux_data.map Prod.fst).filter (fun k => strHasPre ("package-" ++ num ++ ":") k)

/-- The get_linux_package function: parse the cpu number out of the remote
identifier with re.match applied to cpu(\d+) (raising RuntimeError when the
shape is absent), collect the keys matching package-NUM:, and demand exactly
one; the record stored under that unique key is returned. -/
def get_linux_package (linux_data : List (String × α)) (redfish_id : String) :
    Except String α :=
  match reTagDigits "cpu".toList redfish_id.toList with
  | none => .error ("Redfish CPU name is unexpected: " ++ redfish_id)
  | some run =>
    let matching_keys := keysMatching linux_data (String.mk run)
    if matching_keys.length = 1 then
      match linux_data.lookup (matching_keys.headD "") with
      | some v => .ok v
      | none => .error "internal: filtered key not found"
    else
      .error ("Unexpected number of matching linux objects for " ++ redfish_id)

/-- The get_level_from_config_id function: re.match applied to config(\d+);
the captured digit run is returned as a string, never converted to an
integer, and a missing match raises RuntimeError. -/
def get_level_from_config_id (config_id : String) : Except String String :=
  match reTagDigits "config".toList config_id.toList with
  | none => .error ("Invalid config name " ++ config_id)
  | some run => .ok (String.mk run)

/-- One iteration of the loop over BaseSpeedPrioritySettings in
compare_config.  The accumulator is (actual_hp_p1, actual_hp_cores,
actual_lp_p1).  Python truthiness on an integer makes the guard
not actual_hp_p1 mean actual_hp_p1 = 0, and the hp branch updates the
frequency and the core set together. -/
def bfStep (acc : Int × List Int × Int) (bf : BFEntry) : Int × List Int × Int :=
  let hpc :=
    if acc.1 = 0 ∨ bf.BaseSpeedMHz > acc.1 then (bf.BaseSpeedMHz, pySet bf.CoreIDs)
    else (acc.1, acc.2.1)
  let lp :=
    if acc.2.2 = 0 ∨ bf.BaseSpeedMHz < acc.2.2 then bf.BaseSpeedMHz else acc.2.2
  (hpc.1, hpc.2, lp)

/-- The whole loop over BaseSpeedPrioritySettings, started from
(0, empty set, 0) as in the script. -/
def bfFold (entries : List BFEntry) : Int × List Int × Int :=
  entries.foldl bfStep (0, [], 0)

/-- The low-priority component of bfStep on its own, used to reason about
the loop one coordinate at a time. -/
def lpStep (a : Int) (bf : BFEntry) : Int :=
  if a = 0 ∨ bf.BaseSpeedMHz < a then bf.BaseSpeedMHz else a

/-- The high-priority frequency-and-cores component of bfStep on its own. -/
def hpcStep (p : Int × List Int) (bf : BFEntry) : Int × List Int :=
  if p.1 = 0 ∨ bf.BaseSpeedMHz > p.1 then (bf.BaseSpeedMHz, pySet bf.CoreIDs) else p

/-- Translation of one logical thread number through linux_cpu_map; a number
absent from the dict raises KeyError. -/
def cpuMapGet (cpu_map : List (Int × Int)) (n : Int) : Except String Int :=
  match cpu_map.lookup n with
  | some c => .ok c
  | none => .error "KeyError: linux_cpu_map"

/-- The expected SST-BF block of compare_config: when the optional
speed-select-base-freq-properties sub-object is absent the three values stay
(0, empty set, 0); otherwise the two frequencies are int-converted and the
comma-separated high-priority cpu list is translated element-wise through
linux_cpu_map and collected as a set. -/
def expBf (linux_config : LinuxConfig) (cpu_map : List (Int × Int)) :
    Except String (Int × List Int × Int) :=
  match linux_config.bfProps with
  | none => .ok (0, [], 0)
  | some props => do
    let hp ← pyInt props.highPriorityBaseFrequency
    let cores ← (splitChar ',' props.highPriorityCpuList.toList).mapM
      (fun x => do
        let n ← pyInt (String.mk x)
        cpuMapGet cpu_map n)
    let lp ← pyInt props.lowPriorityBaseFrequency
    .ok (hp, pySet cores, lp)

/-- Lexicographic strict comparison of two character lists by code point,
which is how Python compares strings. -/
def strLtChars : List Char → List Char → Bool
  | [], [] => false
  | [], _ :: _ => true
  | _ :: _, [] => false
  | a :: as, b :: bs =>
    if a.toNat < b.toNat then true
    else if b.toNat < a.toNat then false
    else strLtChars as bs

/-- Boolean form of the Python string less-or-equal order. -/
def strLeB (a b : String) : Bool :=
  ! strLtChars b.toList a.toList

/-- The Python string order as a relation, used by the sort. -/
def strLeRel (a b : String) : Prop :=
  strLeB a b = true

instance : DecidableRel strLeRel := fun a b => instDecidableEqBool (strLeB a b) true

/-- Python sorted() on the bucket key names: ascending lexical order. -/
def sortStrings (l : List String) : List String :=
  List.insertionSort strLeRel l

/-- The remote side of the turbo-profile comparison: the
(ActiveCoreCount, MaxSpeedMHz) pairs in the given order of the remote list. -/
def actualTurbo (tp : List TurboEntry) : List (Int × Int) :=
  tp.map (fun x => (x.ActiveCoreCount, x.MaxSpeedMHz))

/-- The local side of the turbo-profile comparison: bucket keys sorted in
ascending lexical order, each bucket converted to an integer pair
(core-count, max-turbo-frequency). -/
def expTurbo (linux_turbo : List (String × Bucket)) : Except String (List (Int × Int)) :=
  (sortStrings (linux_turbo.map Prod.fst)).mapM (fun bucket_key => do
    let bucket ← dictGet linux_turbo bucket_key
    let cc ← pyInt bucket.coreCount
    let mt ← pyInt bucket.maxTurboFrequency
    .ok (cc, mt))

/-- The compare_config function, with the run state (success flag and printed
transcript) threaded through the nine field comparisons in source order; an
int() failure or a missing bucket-0 key aborts with an exception. -/
def compare_config (redfish_config : RedfishConfig) (linux_config : LinuxConfig)
    (cpu_map : List (Int × Int)) (st : Bool × List Comp) :
    Except String (Bool × List Comp) := do
  let baseFreq ← pyInt linux_config.baseFrequency
  let st := runCompare st (.vInt redfish_config.BaseSpeedMHz) (.vInt baseFreq) "Base Speed"
  let acc := bfFold redfish_config.BaseSpeedPrioritySettings
  let exp ← expBf linux_config cpu_map
  let st := runCompare st (.vInt acc.1) (.vInt exp.1) "SST-BF High Priority P1 Freq"
  let st := runCompare st (.vIntSet acc.2.1) (.vIntSet exp.2.1) "SST-BF High Priority Core List"
  let st := runCompare st (.vInt acc.2.2) (.vInt exp.2.2) "SST-BF Low Priority P1 Freq"
  let tj ← pyInt linux_config.tjunctionMax
  let st := runCompare st (.vInt redfish_config.MaxJunctionTemperatureCelsius) (.vInt tj)
    "Junction Temperature"
  let b0 ← dictGet linux_config.turboRatioLimitsSse "bucket-0"
  let b0max ← pyInt b0.maxTurboFrequency
  let st := runCompare st (.vInt redfish_config.MaxSpeedMHz) (.vInt b0max) "SSE Max Turbo Speed"
  let tdp ← pyInt linux_config.thermalDesignPower
  let st := runCompare st (.vInt redfish_config.TDPWatts) (.vInt tdp) "TDP"
  let ecc ← pyInt linux_config.enableCpuCount
  let st := runCompare st (.vInt redfish_config.TotalAvailableCoreCount)
    (.vInt (Int.fdiv ecc 2)) "Enabled Core Count"
  let actual_turbo := actualTurbo redfish_config.TurboProfile
  let exp_turbo ← expTurbo linux_config.turboRatioLimitsSse
  return runCompare st (.vPairsII actual_turbo) (.vPairsII exp_turbo) "SSE Turbo Profile"

/-- Normalization of the local speed-select-base-freq value in main: the
value unsupported is replaced by disabled before the comparison. -/
def normalizeBf (s : String) : String :=
  if s = "unsupported" then "disabled" else s

/-- The expected high-speed core set of main: empty when the optional
sub-object is absent, otherwise the comma-separated cpu list translated
through linux_cpu_map and collected as a set. -/
def expHscores (cfg : LinuxConfig) (cpu_map : List (Int × Int)) :
    Except String (List Int) :=
  match cfg.bfProps with
  | none => .ok []
  | some props => do
    let cores ← (splitChar ',' props.highPriorityCpuList.toList).mapM
      (fun x => do
        let n ← pyInt (String.mk x)
        cpuMapGet cpu_map n)
    .ok (pySet cores)

/-- The body of the per-processor loop of main.  A processor whose status
state is Absent is skipped before anything else happens: no package lookup,
no comparisons, state returned untouched.  Otherwise the local package record
is located, the applied configuration level, base-frequency-boost enablement,
high-speed core list and profile count are compared, and every operating
config is run through compare_config. -/
def processorStep (linux_data : List (String × List (String × PV)))
    (cpu_map : List (Int × Int)) (st : Bool × List Comp) (p : Processor) :
    Except String (Bool × List Comp) :=
  if p.StatusState = "Absent" then .ok st
  else do
    let pkg_data ← get_linux_package linux_data p.Id
    let applied_config := String.mk ((splitChar '/' p.AppliedConfigOdataId.toList).getLastD [])
    let current_level ← get_level_from_config_id applied_config
    let cur ← dictGet pkg_data "get-config-current_level"
    let st := runCompare st (.vStr current_level) (pvToValue cur) "Applied Config"
    let pv ← dictGet pkg_data ("perf-profile-level-" ++ current_level)
    let exp_cur_level_data ← asCfg pv
    let bf_enabled := pyLower p.BaseSpeedPriorityState
    let exp_bf_enabled := normalizeBf exp_cur_level_data.speedSelectBaseFreq
    let st := runCompare st (.vStr bf_enabled) (.vStr exp_bf_enabled) "SST-BF Enabled?"
    let hscores := pySet p.HighSpeedCoreIDs
    let exp_hscores ← expHscores exp_cur_level_data cpu_map
    let st := runCompare st (.vIntSet hscores) (.vIntSet exp_hscores) "High Speed Core List"
    let profile_keys := (pkg_data.map Prod.fst).filter
      (fun k => strHasPre "perf-profile-level" k)
    let st := runCompare st (.vInt p.OperatingConfigsCount)
      (.vInt (Int.ofNat profile_keys.length)) "Number of profiles"
    p.OperatingConfigs.foldlM (fun st cfg => do
      let level ← get_level_from_config_id cfg.Id
      let pv ← dictGet pkg_data ("perf-profile-level-" ++ level)
      let exp_level_data ← asCfg pv
      compare_config cfg exp_level_data cpu_map st) st

/-- The driver of main after the data is fetched: the success flag starts
true, every processor is handled in order, and the exit code is 0 when the
flag is still true at the end, 1 otherwise. -/
def runMain (linux_data : List (String × List (String × PV)))
    (cpu_map : List (Int × Int)) (procs : List Processor) : Except String Nat := do
  let st ← procs.foldlM (processorStep linux_data cpu_map) (true, [])
  return (if st.1 then 0 else 1)

/-- A concrete local perf-profile-level record whose every field agrees with
the concrete remote operating config below. -/
def fixLinuxConfig : LinuxConfig :=
  { baseFrequency := "1000", bfProps := none, tjunctionMax := "95",
    turboRatioLimitsSse := [("bucket-0", ⟨"8", "3000"⟩)],
    thermalDesignPower := "150", enableCpuCount := "16",
    speedSelectBaseFreq := "disabled" }

/-- A concrete remote operating config agreeing with fixLinuxConfig on every
compared field. -/
def fixRedfishConfig : RedfishConfig :=
  { Id := "config0", BaseSpeedMHz := 1000, BaseSpeedPrioritySettings := [],
    MaxJunctionTemperatureCelsius := 95, MaxSpeedMHz := 3000, TDPWatts := 150,
    TotalAvailableCoreCount := 8, TurboProfile := [⟨8, 3000⟩] }

/-- A concrete local package record holding the current level and one
profile level. -/
def fixPkg : List (String × PV) :=
  [("get-config-current_level", .s "0"), ("perf-profile-level-0", .cfg fixLinuxConfig)]

/-- A concrete populated remote processor whose BaseSpeedPriorityState
Enabled disagrees with the local speed-select-base-freq value disabled,
producing exactly one mismatching comparison in a run; every other compared
field agrees. -/
def fixProc : Processor :=
  { Id := "cpu0", StatusState := "Enabled",
    AppliedConfigOdataId := "/redfish/v1/Systems/system/Processors/cpu0/OperatingConfigs/config0",
    BaseSpeedPriorityState := "Enabled", HighSpeedCoreIDs := [],
    OperatingConfigsCount := 1, OperatingConfigs := [fixRedfishConfig] }

/-- The concrete local data set keyed for processor cpu0. -/
def fixLinuxData : List (String × List (String × PV)) :=
  [("package-0:uncore", fixPkg)]

/-- C1: the claim says the process-wide success flag is set to false by
compare on any mismatch and the exit code is then 1.  The code violates
this: compare declares global status while assigning a local success, so the
module-level flag is never cleared.  On a concrete run whose transcript
contains a printed mismatch (the SST-BF enablement comparison), the final
flag is still true and the process exit code is 0, not 1. -/
theorem c1_mismatch_exits_zero :
    (processorStep fixLinuxData [] (true, []) fixProc).map
      (fun st => (st.1, st.2.any (fun c => c.mismatch))) = .ok (true, true)
    ∧ runMain fixLinuxData [] [fixProc] = .ok 0
    ∧ (compare (.vInt 1) (.vInt 2) true).2 = true
    ∧ (compare (.vInt 1) (.vInt 2) true).1 = true := by
  refine ⟨by decide, by decide, by decide, by decide⟩

/-- C3: the claim says the comparator records a mismatch (sets the
process-wide success flag to false) exactly when the values differ.  The
comparison itself is total — it prints the mismatch marker exactly when the
two values differ and never raises, even across types such as the integer 4
against the string 4 — but the flag half of the claim fails on the code: the
flag returned by compare always equals the flag passed in, for mismatching
values included, because the global declaration in its body names status
rather than success. -/
theorem c3_comparator_flag :
    (∀ (v w : Value) (s : Bool), (compare v w s).1 = s ∧ ((compare v w s).2 = true ↔ v ≠ w))
    ∧ (compare (.vInt 4) (.vStr "4") true).2 = true
    ∧ (compare (.vInt 1) (.vInt 2) true).1 = true := by
  refine ⟨fun v w s => ⟨rfl, ?_⟩, by decide, by decide⟩
  simp [compare]

/-- C8: the local base-frequency-boost value unsupported is normalized to
disabled before the comparison, and the remote enablement string is lowered
before the comparison, so a local unsupported matches a remote Disabled; in
general the comparison of a remote state s against a local unsupported
mismatches exactly when the lowered s differs from disabled. -/
theorem c8_unsupported_matches_disabled :
    pyLower "Disabled" = "disabled"
    ∧ normalizeBf "unsupported" = "disabled"
    ∧ (compare (.vStr (pyLower "Disabled")) (.vStr (normalizeBf "unsupported")) true).2 = false
    ∧ (∀ s : String,
        (compare (.vStr (pyLower s)) (.vStr (normalizeBf "unsupported")) true).2
          = decide (pyLower s ≠ "disabled")) := by
  refine ⟨by decide, by decide, by decide, fun s => ?_⟩
  have h : normalizeBf "unsupported" = "disabled" := by decide
  rw [h]
  simp [compare]

/-- C9: a remote processor whose status state is Absent is skipped before
anything else happens in the loop body: the package lookup is never
attempted, no comparison is appended to the transcript, and the run state —
the success flag included — is returned exactly as it came in. -/
theorem c9_absent_processor_skipped (linux_data : List (String × List (String × PV)))
    (cpu_map : List (Int × Int)) (st : Bool × List Comp) (p : Processor)
    (h : p.StatusState = "Absent") :
    processorStep linux_data cpu_map st p = .ok st := by
  unfold processorStep
  rw [if_pos h]

/-- Witness for C9: a concrete absent processor whose identifier would not
even parse in get_linux_package is skipped with the state untouched. -/
theorem c9_absent_processor_skipped_witness :
    processorStep [] [] (true, [])
      { Id := "not-a-cpu", StatusState := "Absent", AppliedConfigOdataId := "",
        BaseSpeedPriorityState := "", HighSpeedCoreIDs := [],
        OperatingConfigsCount := 0, OperatingConfigs := [] } = .ok (true, []) :=
  c9_absent_processor_skipped [] [] (true, []) _ rfl

theorem isPrefixOf_self_append (t r : List Char) : t.isPrefixOf (t ++ r) = true := by
  induction t with
  | nil => simp [List.isPrefixOf]
  | cons c cs ih => simp [List.isPrefixOf, ih]

theorem takeWhile_digits (ds rest : List Char) (h1 : ∀ c ∈ ds, c.isDigit = true)
    (h2 : isDigitHead rest = false) :
    (ds ++ rest).takeWhile Char.isDigit = ds ∧ (ds ++ rest).dropWhile Char.isDigit = rest := by
  induction ds with
  | nil =>
    cases rest with
    | nil => exact ⟨rfl, rfl⟩
    | cons c cs =>
      simp only [isDigitHead] at h2
      simp [List.takeWhile_cons, List.dropWhile_cons, h2]
  | cons d ds ih =>
    have hd : d.isDigit = true := h1 d (by simp)
    have hr := ih (fun c hc => h1 c (by simp [hc]))
    simp [List.takeWhile_cons, List.dropWhile_cons, hd, hr.1, hr.2]

theorem takeWhile_digits_isEmpty (l : List Char) :
    ((l.takeWhile Char.isDigit).isEmpty = true) ↔ isDigitHead l = false := by
  cases l with
  | nil => simp [isDigitHead]
  | cons c cs => cases h : c.isDigit <;> simp [isDigitHead, List.takeWhile_cons, h]

/-- C4: get_linux_package aborts when the identifier has no cpu-number
shape; when exactly one key of the local mapping starts with the derived
package-N: pattern it returns the record stored under that key; when the
number of matching keys is anything other than one it aborts instead of
resolving silently. -/
theorem c4_get_linux_package_cases {α : Type} :
    (∀ (data : List (String × α)) (id : String),
      reTagDigits "cpu".toList id.toList = none →
      get_linux_package data id = .error ("Redfish CPU name is unexpected: " ++ id))
    ∧ (∀ (data : List (String × α)) (id : String) (run : List Char) (k : String) (v : α),
      reTagDigits "cpu".toList id.toList = some run →
      keysMatching data (String.mk run) = [k] →
      data.lookup k = some v →
      get_linux_package data id = .ok v)
    ∧ (∀ (data : List (String × α)) (id : String) (run : List Char),
      reTagDigits "cpu".toList id.toList = some run →
      (keysMatching data (String.mk run)).length ≠ 1 →
      get_linux_package data id
        = .error ("Unexpected number of matching linux objects for " ++ id)) := by
  refine ⟨fun data id h => ?_, fun data id run k v h hm hl => ?_, fun data id run h hm => ?_⟩
  · unfold get_linux_package
    rw [h]
  · unfold get_linux_package
    rw [h]
    dsimp only
    rw [hm]
    simp [hl]
  · unfold get_linux_package
    rw [h]
    dsimp only
    rw [if_neg hm]

/-- Witness for C4: on concrete data, a malformed identifier aborts, the
spec example cpu3 with the unique key package-3:a returns its record, and
two matching keys abort. -/
theorem c4_get_linux_package_cases_witness :
    get_linux_package [("package-3:a", (7 : Nat))] "zcpu3"
      = .error "Redfish CPU name is unexpected: zcpu3"
    ∧ get_linux_package [("package-2:a", (5 : Nat)), ("package-3:a", 7)] "cpu3" = .ok 7
    ∧ get_linux_package [("package-3:a", (7 : Nat)), ("package-3:b", 8)] "cpu3"
      = .error "Unexpected number of matching linux objects for cpu3" :=
  ⟨c4_get_linux_package_cases.1 _ _ (by decide),
   c4_get_linux_package_cases.2.1 _ _ ['3'] "package-3:a" 7 (by decide) (by decide) (by decide),
   c4_get_linux_package_cases.2.2 _ _ ['3'] (by decide) (by decide)⟩

/-- C10: identifier parsing is prefix-lenient.  The identifier cpu3extra is
accepted and resolved through package number 3; get_level_from_config_id on
config12tdp returns the digit run 12 as a string; in general the tag
followed by a digit run with any trailing text yields exactly that digit
run, and the match fails precisely when the string does not start with the
tag immediately followed by a digit. -/
theorem c10_lenient_identifier_parsing :
    get_linux_package [("package-3:punit0", (42 : Nat))] "cpu3extra" = .ok 42
    ∧ get_level_from_config_id "config12tdp" = .ok "12"
    ∧ (∀ ds rest : List Char, ds ≠ [] → (∀ c ∈ ds, c.isDigit = true) →
        isDigitHead rest = false →
        reTagDigits "config".toList ("config".toList ++ (ds ++ rest)) = some ds)
    ∧ (∀ cs : List Char, reTagDigits "cpu".toList cs = none ↔ tagHere "cpu".toList cs = false) := by
  refine ⟨by decide, by decide, fun ds rest hne h1 h2 => ?_, fun cs => ?_⟩
  · unfold reTagDigits
    rw [isPrefixOf_self_append, if_pos rfl, List.drop_left, (takeWhile_digits ds rest h1 h2).1]
    cases ds with
    | nil => exact absurd rfl hne
    | cons d ds => simp
  · cases hp : ("cpu".toList).isPrefixOf cs with
    | false =>
      unfold reTagDigits tagHere
      rw [hp]
      simp
    | true =>
      unfold reTagDigits tagHere
      rw [hp, if_pos rfl, Bool.true_and]
      dsimp only
      have htw := takeWhile_digits_isEmpty (cs.drop ("cpu".toList).length)
      cases he : ((cs.drop ("cpu".toList).length).takeWhile Char.isDigit).isEmpty with
      | true =>
        simpa using htw.mp he
      | false =>
        rw [if_neg (by simp [he])]
        rw [he] at htw
        simp only [Bool.false_eq_true, false_iff, Bool.not_eq_false] at htw
        simpa using htw

/-- Witness for C10: the general leniency clause applied at the digit run 9
followed by the trailing text x7 is a real match returning 9. -/
theorem c10_lenient_identifier_parsing_witness :
    reTagDigits "config".toList ("config".toList ++ (['9'] ++ ['x', '7'])) = some ['9'] :=
  c10_lenient_identifier_parsing.2.2.1 ['9'] ['x', '7'] (by decide) (by decide) (by decide)

theorem bfStep_lp (acc : Int × List Int × Int) (bf : BFEntry) :
    (bfStep acc bf).2.2 = lpStep acc.2.2 bf := rfl

theorem bfFold_lp_proj (l : List BFEntry) :
    ∀ acc : Int × List Int × Int, (l.foldl bfStep acc).2.2 = l.foldl lpStep acc.2.2 := by
  induction l with
  | nil => intro acc; rfl
  | cons e l ih =>
    intro acc
    rw [List.foldl_cons, List.foldl_cons, ih, bfStep_lp]

theorem lpFold_min (l : List BFEntry) :
    ∀ a : Int, a ≠ 0 → (∀ e ∈ l, e.BaseSpeedMHz ≠ 0) →
      l.foldl lpStep a = (l.map (fun e => e.BaseSpeedMHz)).foldl min a := by
  induction l with
  | nil => intro a _ _; rfl
  | cons e l ih =>
    intro a ha hl
    have he : e.BaseSpeedMHz ≠ 0 := hl e (by simp)
    rw [List.foldl_cons, List.map_cons, List.foldl_cons]
    have hstep : lpStep a e = min a e.BaseSpeedMHz := by
      unfold lpStep
      rcases lt_or_ge e.BaseSpeedMHz a with h | h
      · rw [if_pos (Or.inr h)]
        exact (min_eq_right (le_of_lt h)).symm
      · rw [if_neg (by
          intro hc
          rcases hc with hc | hc
          · exact ha hc
          · exact absurd hc (not_lt.mpr h))]
        exact (min_eq_left h).symm
    rw [hstep]
    have hmz : min a e.BaseSpeedMHz ≠ 0 := by
      rcases min_choice a e.BaseSpeedMHz with h | h <;> rw [h]
      · exact ha
      · exact he
    exact ih (min a e.BaseSpeedMHz) hmz (fun x hx => hl x (by simp [hx]))

theorem foldl_min_le_init (l : List Int) : ∀ a : Int, l.foldl min a ≤ a := by
  induction l with
  | nil => intro a; exact le_refl a
  | cons b l ih => intro a; exact le_trans (ih (min a b)) (min_le_left a b)

theorem foldl_min_le_mem (l : List Int) :
    ∀ a x : Int, x ∈ l → l.foldl min a ≤ x := by
  induction l with
  | nil => intro a x hx; cases hx
  | cons b l ih =>
    intro a x hx
    rcases List.mem_cons.mp hx with h | h
    · subst h
      exact le_trans (foldl_min_le_init l (min a x)) (min_le_right a x)
    · exact ih (min a b) x h

theorem foldl_min_mem (l : List Int) :
    ∀ a : Int, l.foldl min a = a ∨ l.foldl min a ∈ l := by
  induction l with
  | nil => intro a; exact Or.inl rfl
  | cons b l ih =>
    intro a
    rw [List.foldl_cons]
    rcases ih (min a b) with h | h
    · rcases min_choice a b with hm | hm
      · exact Or.inl (h.trans hm)
      · exact Or.inr (by rw [h, hm]; exact List.mem_cons_self b l)
    · exact Or.inr (List.mem_cons_of_mem b h)

theorem foldl_max_init_le (l : List Int) : ∀ a : Int, a ≤ l.foldl max a := by
  induction l with
  | nil => intro a; exact le_refl a
  | cons b l ih => intro a; exact le_trans (le_max_left a b) (ih (max a b))

theorem foldl_max_mem_le (l : List Int) :
    ∀ a x : Int, x ∈ l → x ≤ l.foldl max a := by
  induction l with
  | nil => intro a x hx; cases hx
  | cons b l ih =>
    intro a x hx
    rcases List.mem_cons.mp hx with h | h
    · subst h
      exact le_trans (le_max_right a x) (foldl_max_init_le l (max a x))
    · exact ih (max a b) x h

theorem foldl_max_mem (l : List Int) :
    ∀ a : Int, l.foldl max a = a ∨ l.foldl max a ∈ l := by
  induction l with
  | nil => intro a; exact Or.inl rfl
  | cons b l ih =>
    intro a
    rw [List.foldl_cons]
    rcases ih (max a b) with h | h
    · rcases max_choice a b with hm | hm
      · exact Or.inl (h.trans hm)
      · exact Or.inr (by rw [h, hm]; exact List.mem_cons_self b l)
    · exact Or.inr (List.mem_cons_of_mem b h)

/-- C2 counterexample: on the priority-settings list with base speeds 0 and
500 the computed low-priority P1 frequency is 500, while the numerically
lowest BaseSpeedMHz of the list is 0 — the Python guard not actual_lp_p1
retriggers on the 0 held in the accumulator and lets 500 overwrite the true
minimum. -/
theorem c2_low_priority_counterexample :
    (bfFold [⟨0, []⟩, ⟨500, []⟩]).2.2 = 500
    ∧ (([⟨0, []⟩, ⟨500, []⟩] : List BFEntry).map (fun e => e.BaseSpeedMHz)).min? = some 0
    ∧ (500 : Int) ≠ 0 := by
  refine ⟨by decide, by decide, by decide⟩

/-- C2 amended: for a priority-settings list whose entries all carry a
nonzero BaseSpeedMHz, the computed low-priority P1 frequency is the
numerically lowest BaseSpeedMHz of the list (a member that bounds every
member from below); for the empty list the whole triple stays (0, empty, 0),
and an absent local sub-object yields the local triple (0, empty, 0). -/
theorem c2_low_priority_p1 :
    (∀ entries : List BFEntry, (∀ e ∈ entries, e.BaseSpeedMHz ≠ 0) → entries ≠ [] →
      ((bfFold entries).2.2 ∈ entries.map (fun e => e.BaseSpeedMHz)
       ∧ ∀ v ∈ entries.map (fun e => e.BaseSpeedMHz), (bfFold entries).2.2 ≤ v))
    ∧ bfFold [] = (0, [], 0)
    ∧ (∀ (lc : LinuxConfig) (cm : List (Int × Int)), lc.bfProps = none →
        expBf lc cm = .ok (0, [], 0)) := by
  refine ⟨fun entries h hne => ?_, rfl, fun lc cm h => ?_⟩
  · cases entries with
    | nil => exact absurd rfl hne
    | cons e l =>
      have he : e.BaseSpeedMHz ≠ 0 := h e (by simp)
      have hstep : bfStep (0, [], 0) e = (e.BaseSpeedMHz, pySet e.CoreIDs, e.BaseSpeedMHz) := by
        simp [bfStep]
      unfold bfFold
      rw [List.foldl_cons, hstep, bfFold_lp_proj,
        lpFold_min l e.BaseSpeedMHz he (fun x hx => h x (by simp [hx]))]
      constructor
      · rw [List.map_cons]
        rcases foldl_min_mem (l.map (fun e => e.BaseSpeedMHz)) e.BaseSpeedMHz with hm | hm
        · rw [hm]; exact List.mem_cons_self _ _
        · exact List.mem_cons_of_mem _ hm
      · intro v hv
        rcases List.mem_cons.mp hv with hv | hv
        · rw [hv]; exact foldl_min_le_init _ _
        · exact foldl_min_le_mem _ _ _ hv
  · unfold expBf
    rw [h]

/-- Witness for C2: the amended statement applied to the all-nonzero list
with base speeds 700, 500, 600 — the computed low-priority P1 frequency is a
member of the list bounding all members from below — and to a local record
with the sub-object absent. -/
theorem c2_low_priority_p1_witness :
    ((bfFold [⟨700, []⟩, ⟨500, []⟩, ⟨600, []⟩]).2.2
        ∈ ([⟨700, []⟩, ⟨500, []⟩, ⟨600, []⟩] : List BFEntry).map (fun e => e.BaseSpeedMHz)
     ∧ ∀ v ∈ ([⟨700, []⟩, ⟨500, []⟩, ⟨600, []⟩] : List BFEntry).map (fun e => e.BaseSpeedMHz),
        (bfFold [⟨700, []⟩, ⟨500, []⟩, ⟨600, []⟩]).2.2 ≤ v)
    ∧ expBf ⟨"", none, "", [], "", "", ""⟩ [] = .ok (0, [], 0) :=
  ⟨c2_low_priority_p1.1 _ (by decide) (by decide),
   c2_low_priority_p1.2.2 _ [] rfl⟩

theorem bfStep_hpc (acc : Int × List Int × Int) (bf : BFEntry) :
    ((bfStep acc bf).1, (bfStep acc bf).2.1) = hpcStep (acc.1, acc.2.1) bf := by
  by_cases h : acc.1 = 0 ∨ bf.BaseSpeedMHz > acc.1 <;> simp [bfStep, hpcStep, h]

theorem bfFold_hpc_proj (l : List BFEntry) :
    ∀ acc : Int × List Int × Int,
      ((l.foldl bfStep acc).1, (l.foldl bfStep acc).2.1)
        = l.foldl hpcStep (acc.1, acc.2.1) := by
  induction l with
  | nil => intro acc; rfl
  | cons e l ih =>
    intro acc
    rw [List.foldl_cons, List.foldl_cons, ih, bfStep_hpc]

theorem hpcFold_spec (l : List BFEntry) :
    ∀ (a : Int) (cs : List Int), a ≠ 0 → (∀ e ∈ l, e.BaseSpeedMHz ≠ 0) →
      (l.foldl hpcStep (a, cs)).1 = (l.map (fun e => e.BaseSpeedMHz)).foldl max a
      ∧ ((l.foldl hpcStep (a, cs)).1 = a → (l.foldl hpcStep (a, cs)).2 = cs)
      ∧ ((l.foldl hpcStep (a, cs)).1 ≠ a →
         ∃ e, l.find? (fun x => x.BaseSpeedMHz == (l.foldl hpcStep (a, cs)).1) = some e
            ∧ (l.foldl hpcStep (a, cs)).2 = pySet e.CoreIDs) := by
  induction l with
  | nil =>
    intro a cs _ _
    exact ⟨rfl, fun _ => rfl, fun h => absurd rfl h⟩
  | cons e l ih =>
    intro a cs ha hl
    have he : e.BaseSpeedMHz ≠ 0 := hl e (by simp)
    have hltl : ∀ x ∈ l, x.BaseSpeedMHz ≠ 0 := fun x hx => hl x (by simp [hx])
    rw [List.foldl_cons, List.map_cons, List.foldl_cons]
    by_cases hgt : e.BaseSpeedMHz > a
    · have hstep : hpcStep (a, cs) e = (e.BaseSpeedMHz, pySet e.CoreIDs) := by
        unfold hpcStep
        rw [if_pos (Or.inr hgt)]
      rw [hstep, max_eq_right (le_of_lt hgt)]
      obtain ⟨ih1, ih2, ih3⟩ := ih e.BaseSpeedMHz (pySet e.CoreIDs) he hltl
      refine ⟨ih1, fun h => ?_, fun hne => ?_⟩
      · exfalso
        have hge := foldl_max_init_le (l.map (fun e => e.BaseSpeedMHz)) e.BaseSpeedMHz
        rw [ih1] at h
        omega
      · by_cases hre : (l.foldl hpcStep (e.BaseSpeedMHz, pySet e.CoreIDs)).1 = e.BaseSpeedMHz
        · refine ⟨e, ?_, ih2 hre⟩
          rw [List.find?_cons_of_pos]
          simp [hre]
        · obtain ⟨x, hf, hc⟩ := ih3 hre
          refine ⟨x, ?_, hc⟩
          rw [List.find?_cons_of_neg, hf]
          intro hx
          simp only [beq_iff_eq] at hx
          exact hre hx.symm
    · have hstep : hpcStep (a, cs) e = (a, cs) := by
        unfold hpcStep
        rw [if_neg (by
          intro hc
          rcases hc with hc | hc
          · exact ha hc
          · exact hgt hc)]
      rw [hstep, max_eq_left (not_lt.mp hgt)]
      obtain ⟨ih1, ih2, ih3⟩ := ih a cs ha hltl
      refine ⟨ih1, ih2, fun hne => ?_⟩
      obtain ⟨x, hf, hc⟩ := ih3 hne
      refine ⟨x, ?_, hc⟩
      rw [List.find?_cons_of_neg, hf]
      intro heq
      simp only [beq_iff_eq] at heq
      have h1 := foldl_max_init_le (l.map (fun e => e.BaseSpeedMHz)) a
      have h2 := not_lt.mp hgt
      rw [ih1] at hne heq
      omega

/-- C7 counterexample: on two priority-settings entries both carrying
BaseSpeedMHz 0, with CoreIDs 1 and 2 respectively, the first-encountered
maximum is the first entry (as find? on the computed maximum shows), yet the
computed high-priority core set is the set for the second entry — the guard
not actual_hp_p1 retriggers on the 0 held in the accumulator, so the later
entry wins the tie instead of the first. -/
theorem c7_high_priority_counterexample :
    (bfFold [⟨0, [1]⟩, ⟨0, [2]⟩]).1 = 0
    ∧ ([⟨0, [1]⟩, ⟨0, [2]⟩] : List BFEntry).find? (fun x => x.BaseSpeedMHz == 0)
        = some ⟨0, [1]⟩
    ∧ (bfFold [⟨0, [1]⟩, ⟨0, [2]⟩]).2.1 = [2]
    ∧ ([2] : List Int) ≠ pySet [1] := by
  refine ⟨by decide, by decide, by decide, by decide⟩

/-- C7 amended: for a priority-settings list whose entries all carry a
nonzero BaseSpeedMHz, the computed high-priority P1 frequency is the
numerically highest BaseSpeedMHz of the list, and the computed core set is
the set of CoreIDs of the first entry attaining that maximum (the
first-encountered maximum, as selected by find?); for the empty list the
result triple is (0, empty set, 0). -/
theorem c7_high_priority_p1 :
    (∀ entries : List BFEntry, (∀ e ∈ entries, e.BaseSpeedMHz ≠ 0) → entries ≠ [] →
      ((bfFold entries).1 ∈ entries.map (fun e => e.BaseSpeedMHz)
       ∧ (∀ v ∈ entries.map (fun e => e.BaseSpeedMHz), v ≤ (bfFold entries).1)
       ∧ ∃ e, entries.find? (fun x => x.BaseSpeedMHz == (bfFold entries).1) = some e
            ∧ (bfFold entries).2.1 = pySet e.CoreIDs))
    ∧ bfFold [] = (0, [], 0) := by
  refine ⟨fun entries h hne => ?_, rfl⟩
  cases entries with
  | nil => exact absurd rfl hne
  | cons e l =>
    have he : e.BaseSpeedMHz ≠ 0 := h e (by simp)
    have hltl : ∀ x ∈ l, x.BaseSpeedMHz ≠ 0 := fun x hx => h x (by simp [hx])
    have hstep : bfStep (0, [], 0) e = (e.BaseSpeedMHz, pySet e.CoreIDs, e.BaseSpeedMHz) := by
      simp [bfStep]
    have hproj := bfFold_hpc_proj l (e.BaseSpeedMHz, pySet e.CoreIDs, e.BaseSpeedMHz)
    have h1 : (l.foldl bfStep (e.BaseSpeedMHz, pySet e.CoreIDs, e.BaseSpeedMHz)).1
        = (l.foldl hpcStep (e.BaseSpeedMHz, pySet e.CoreIDs)).1 := congrArg Prod.fst hproj
    have h2 : (l.foldl bfStep (e.BaseSpeedMHz, pySet e.CoreIDs, e.BaseSpeedMHz)).2.1
        = (l.foldl hpcStep (e.BaseSpeedMHz, pySet e.CoreIDs)).2 := congrArg Prod.snd hproj
    obtain ⟨hs1, hs2, hs3⟩ := hpcFold_spec l e.BaseSpeedMHz (pySet e.CoreIDs) he hltl
    have hbf : bfFold (e :: l) = l.foldl bfStep (e.BaseSpeedMHz, pySet e.CoreIDs, e.BaseSpeedMHz) := by
      unfold bfFold
      rw [List.foldl_cons, hstep]
    rw [hbf, h1, h2, hs1]
    refine ⟨?_, ?_, ?_⟩
    · rw [List.map_cons]
      rcases foldl_max_mem (l.map (fun e => e.BaseSpeedMHz)) e.BaseSpeedMHz with hm | hm
      · rw [hm]; exact List.mem_cons_self _ _
      · exact List.mem_cons_of_mem _ hm
    · intro v hv
      rcases List.mem_cons.mp hv with hv | hv
      · rw [hv]; exact foldl_max_init_le _ _
      · exact foldl_max_mem_le _ _ _ hv
    · rw [← hs1]
      by_cases hre : (l.foldl hpcStep (e.BaseSpeedMHz, pySet e.CoreIDs)).1 = e.BaseSpeedMHz
      · refine ⟨e, ?_, hs2 hre⟩
        rw [List.find?_cons_of_pos]
        simp [hre]
      · obtain ⟨x, hf, hc⟩ := hs3 hre
        refine ⟨x, ?_, hc⟩
        rw [List.find?_cons_of_neg, hf]
        intro hx
        simp only [beq_iff_eq] at hx
        exact hre hx.symm

/-- Witness for C7: the amended statement applied to the all-nonzero list
with base speeds 700, 500, 700 and core lists 1 2, 9, 3: the maximum 700 is
attained first by the head entry, so its core set wins the tie. -/
theorem c7_high_priority_p1_witness :
    (bfFold [⟨700, [1, 2]⟩, ⟨500, [9]⟩, ⟨700, [3]⟩]).1
        ∈ ([⟨700, [1, 2]⟩, ⟨500, [9]⟩, ⟨700, [3]⟩] : List BFEntry).map (fun e => e.BaseSpeedMHz)
    ∧ (∀ v ∈ ([⟨700, [1, 2]⟩, ⟨500, [9]⟩, ⟨700, [3]⟩] : List BFEntry).map
          (fun e => e.BaseSpeedMHz),
        v ≤ (bfFold [⟨700, [1, 2]⟩, ⟨500, [9]⟩, ⟨700, [3]⟩]).1)
    ∧ ∃ e, ([⟨700, [1, 2]⟩, ⟨500, [9]⟩, ⟨700, [3]⟩] : List BFEntry).find?
          (fun x => x.BaseSpeedMHz == (bfFold [⟨700, [1, 2]⟩, ⟨500, [9]⟩, ⟨700, [3]⟩]).1) = some e
        ∧ (bfFold [⟨700, [1, 2]⟩, ⟨500, [9]⟩, ⟨700, [3]⟩]).2.1 = pySet e.CoreIDs :=
  c7_high_priority_p1.1 _ (by decide) (by decide)

theorem tagHere_nil (t : List Char) : tagHere t [] = false := by
  unfold tagHere
  cases t with
  | nil => simp [isDigitHead]
  | cons c cs => simp [List.isPrefixOf]

theorem tagHere_drop_ge (t l : List Char) (j : Nat) (h : l.length ≤ j) :
    tagHere t (l.drop j) = false := by
  rw [List.drop_eq_nil_of_le h, tagHere_nil]

theorem findFirstTag_none_of (t : List Char) :
    ∀ s : List Char, (∀ j, tagHere t (s.drop j) = false) → findFirstTag t s = none := by
  intro s
  induction s with
  | nil => intro _; rfl
  | cons c cs ih =>
    intro h
    have h0 : tagHere t (c :: cs) = false := by simpa using h 0
    unfold findFirstTag
    rw [if_neg (by rw [h0]; exact Bool.false_ne_true)]
    exact ih (fun j => by simpa using h (j + 1))

theorem findFirstTag_spec (t : List Char) :
    ∀ (s : List Char) (k : Nat), tagHere t (s.drop k) = true →
      (∀ j, j < k → tagHere t (s.drop j) = false) →
      findFirstTag t s = some ((s.drop k).drop t.length) := by
  intro s
  induction s with
  | nil =>
    intro k hk _
    rw [List.drop_nil, tagHere_nil] at hk
    exact absurd hk Bool.false_ne_true
  | cons c cs ih =>
    intro k hk hno
    cases k with
    | zero =>
      rw [List.drop_zero] at hk ⊢
      unfold findFirstTag
      rw [if_pos hk]
    | succ k =>
      have h0 : tagHere t (c :: cs) = false := by simpa using hno 0 (Nat.succ_pos k)
      unfold findFirstTag
      rw [if_neg (by rw [h0]; exact Bool.false_ne_true)]
      rw [List.drop_succ_cons] at hk ⊢
      exact ih k hk (fun j hj => by simpa using hno (j + 1) (Nat.succ_lt_succ hj))

theorem findLastTag_none_of (t : List Char) :
    ∀ s : List Char, (∀ j, tagHere t (s.drop j) = false) → findLastTag t s = none := by
  intro s
  induction s with
  | nil => intro _; rfl
  | cons c cs ih =>
    intro h
    have h0 : tagHere t (c :: cs) = false := by simpa using h 0
    have hrec := ih (fun j => by simpa using h (j + 1))
    unfold findLastTag
    rw [hrec, if_neg (by rw [h0]; exact Bool.false_ne_true)]

theorem findLastTag_spec (t : List Char) :
    ∀ (s : List Char) (k : Nat), tagHere t (s.drop k) = true →
      (∀ j, k < j → tagHere t (s.drop j) = false) →
      findLastTag t s = some ((s.drop k).drop t.length) := by
  intro s
  induction s with
  | nil =>
    intro k hk _
    rw [List.drop_nil, tagHere_nil] at hk
    exact absurd hk Bool.false_ne_true
  | cons c cs ih =>
    intro k hk hno
    cases k with
    | zero =>
      rw [List.drop_zero] at hk ⊢
      have hrec : findLastTag t cs = none :=
        findLastTag_none_of t cs (fun j => by simpa using hno (j + 1) (Nat.succ_pos j))
      unfold findLastTag
      rw [hrec, if_pos hk]
    | succ k =>
      rw [List.drop_succ_cons] at hk ⊢
      have hrec := ih k hk (fun j hj => by simpa using hno (j + 1) (Nat.succ_lt_succ hj))
      unfold findLastTag
      rw [hrec]

theorem findFirstTag_suffix (t : List Char) :
    ∀ (s r : List Char), findFirstTag t s = some r → ∃ k, r = s.drop k := by
  intro s
  induction s with
  | nil => intro r h; cases h
  | cons c cs ih =>
    intro r h
    unfold findFirstTag at h
    by_cases hc : tagHere t (c :: cs) = true
    · rw [if_pos hc] at h
      exact ⟨t.length, (Option.some.injEq _ _ ▸ h).symm⟩
    · rw [if_neg hc] at h
      obtain ⟨k, hk⟩ := ih r h
      exact ⟨k + 1, by rw [hk, List.drop_succ_cons]⟩

theorem dropWhile_eq_drop (p : Char → Bool) (l : List Char) :
    l.dropWhile p = l.drop (l.takeWhile p).length := by
  induction l with
  | nil => rfl
  | cons c cs ih =>
    cases h : p c
    · simp [List.takeWhile_cons, List.dropWhile_cons, h]
    · simp [List.takeWhile_cons, List.dropWhile_cons, h, ih]

/-- C5: the identifier-mapper line scan.  First clause: a line shaped as
arbitrary text with no earlier logical tag, then logical_cpu: with a digit
run N, then filler, then the last punit_core: occurrence with a digit run M,
then a non-digit tail, prepends the binding N to M onto the map.  Second
clause: a line missing the logical tag, or missing the punit tag, leaves the
map untouched and is no error.  Third clause: lines are processed in order
and a later binding for the same logical thread shadows the earlier one in
the lookup.  Fourth clause: the whole map construction is the in-order fold
of the per-line scan over the newline-split output. -/
theorem c5_identifier_mapper :
    (∀ (m : List (Int × Int)) (pre ds mid es suf : List Char),
      (∀ j, j < pre.length →
        tagHere logicalTag
          ((pre ++ (logicalTag ++ (ds ++ (mid ++ (punitTag ++ (es ++ suf)))))).drop j)
          = false) →
      ds ≠ [] → (∀ c ∈ ds, c.isDigit = true) →
      isDigitHead (mid ++ (punitTag ++ (es ++ suf))) = false →
      es ≠ [] → (∀ c ∈ es, c.isDigit = true) →
      isDigitHead suf = false →
      (∀ j, j ≤ (mid ++ (punitTag ++ (es ++ suf))).length → mid.length < j →
        tagHere punitTag ((mid ++ (punitTag ++ (es ++ suf))).drop j) = false) →
      processLine m (pre ++ (logicalTag ++ (ds ++ (mid ++ (punitTag ++ (es ++ suf))))))
        = ((natOfDigits ds : Int), (natOfDigits es : Int)) :: m)
    ∧ (∀ (m : List (Int × Int)) (line : List Char),
      ((∀ j, j ≤ line.length → tagHere logicalTag (line.drop j) = false) ∨
       (∀ j, j ≤ line.length → tagHere punitTag (line.drop j) = false)) →
      processLine m line = m)
    ∧ (∀ (m : List (Int × Int)) (lA lB : List Char) (n m1 m2 : Nat),
      extractPair lA = some (n, m1) → extractPair lB = some (n, m2) →
      ([lA, lB].foldl processLine m).lookup (n : Int) = some (m2 : Int))
    ∧ (∀ s : String, buildCpuMap s = (splitChar '\n' s.toList).foldl processLine []) := by
  refine ⟨fun m pre ds mid es suf hpre hds hdsdig hmidhead hes hesdig hsufhead hpun => ?_,
    fun m line h => ?_, fun m lA lB n m1 m2 hA hB => ?_, fun s => rfl⟩
  · have hdrop1 : (pre ++ (logicalTag ++ (ds ++ (mid ++ (punitTag ++ (es ++ suf)))))).drop
          pre.length
        = logicalTag ++ (ds ++ (mid ++ (punitTag ++ (es ++ suf)))) := List.drop_left _ _
    have htag : tagHere logicalTag
        ((pre ++ (logicalTag ++ (ds ++ (mid ++ (punitTag ++ (es ++ suf)))))).drop pre.length)
        = true := by
      rw [hdrop1]
      unfold tagHere
      rw [isPrefixOf_self_append, List.drop_left]
      cases ds with
      | nil => exact absurd rfl hds
      | cons d ds2 =>
        have hd : d.isDigit = true := hdsdig d (by simp)
        simp [isDigitHead, hd]
    have hfirst : findFirstTag logicalTag
        (pre ++ (logicalTag ++ (ds ++ (mid ++ (punitTag ++ (es ++ suf))))))
        = some (ds ++ (mid ++ (punitTag ++ (es ++ suf)))) := by
      rw [findFirstTag_spec logicalTag _ pre.length htag hpre, hdrop1, List.drop_left]
    have htw := takeWhile_digits ds (mid ++ (punitTag ++ (es ++ suf))) hdsdig hmidhead
    have htag2 : tagHere punitTag ((mid ++ (punitTag ++ (es ++ suf))).drop mid.length) = true := by
      rw [List.drop_left]
      unfold tagHere
      rw [isPrefixOf_self_append, List.drop_left]
      cases es with
      | nil => exact absurd rfl hes
      | cons e es2 =>
        have hd : e.isDigit = true := hesdig e (by simp)
        simp [isDigitHead, hd]
    have hno2 : ∀ j, mid.length < j →
        tagHere punitTag ((mid ++ (punitTag ++ (es ++ suf))).drop j) = false := by
      intro j hj
      by_cases hlen : j ≤ (mid ++ (punitTag ++ (es ++ suf))).length
      · exact hpun j hlen hj
      · exact tagHere_drop_ge _ _ _ (le_of_not_le hlen)
    have hlast : findLastTag punitTag (mid ++ (punitTag ++ (es ++ suf)))
        = some (es ++ suf) := by
      rw [findLastTag_spec punitTag _ mid.length htag2 hno2, List.drop_left, List.drop_left]
    have hext : extractPair (pre ++ (logicalTag ++ (ds ++ (mid ++ (punitTag ++ (es ++ suf))))))
        = some (natOfDigits ds, natOfDigits es) := by
      unfold extractPair
      rw [hfirst]
      dsimp only
      rw [htw.1, htw.2, hlast]
      dsimp only
      rw [(takeWhile_digits es suf hesdig hsufhead).1]
    unfold processLine
    rw [hext]
  · have hall : ∀ (t : List Char), (∀ j, j ≤ line.length → tagHere t (line.drop j) = false) →
        ∀ j, tagHere t (line.drop j) = false := by
      intro t ht j
      by_cases hj : j ≤ line.length
      · exact ht j hj
      · exact tagHere_drop_ge _ _ _ (le_of_not_le hj)
    rcases h with h | h
    · have hf : findFirstTag logicalTag line = none :=
        findFirstTag_none_of _ _ (hall _ h)
      unfold processLine extractPair
      rw [hf]
    · unfold processLine extractPair
      cases hf : findFirstTag logicalTag line with
      | none => rfl
      | some rest =>
        obtain ⟨k, hk⟩ := findFirstTag_suffix _ _ _ hf
        have hlastnone : findLastTag punitTag (rest.dropWhile Char.isDigit) = none := by
          refine findLastTag_none_of _ _ (fun j => ?_)
          rw [dropWhile_eq_drop, hk, List.drop_drop, List.drop_drop]
          exact hall _ h _
        dsimp only
        rw [hlastnone]
  · simp only [List.foldl_cons, List.foldl_nil]
    unfold processLine
    rw [hA]
    dsimp only
    rw [hB]
    dsimp only
    simp [List.lookup]

/-- Witness for C5: a canonical line binds thread 3 to core 7 on top of the
empty map, a line with neither tag leaves the map alone, and two lines for
thread 1 leave the later core 9 in the lookup. -/
theorem c5_identifier_mapper_witness :
    processLine [] ([] ++ (logicalTag ++ (['3'] ++ ([' '] ++ (punitTag ++ (['7'] ++ []))))))
      = [((3 : Int), (7 : Int))]
    ∧ processLine [((5 : Int), (5 : Int))] "no tags here".toList = [(5, 5)]
    ∧ ((["logical_cpu:1 punit_core:2".toList,
         "logical_cpu:1 punit_core:9".toList].foldl processLine []).lookup (1 : Int)
        = some (9 : Int)) :=
  ⟨(c5_identifier_mapper.1 [] [] ['3'] [' '] ['7'] [] (by decide) (by decide) (by decide)
      (by decide) (by decide) (by decide) (by decide) (by decide)).trans (by decide),
   c5_identifier_mapper.2.1 _ _ (Or.inl (by decide)),
   c5_identifier_mapper.2.2.1 [] _ _ 1 2 9 (by decide) (by decide)⟩

theorem strLtChars_asymm : ∀ as bs : List Char,
    strLtChars as bs = true → strLtChars bs as = false := by
  intro as
  induction as with
  | nil =>
    intro bs h
    cases bs with
    | nil => simp [strLtChars] at h
    | cons b bs => simp [strLtChars]
  | cons a as ih =>
    intro bs h
    cases bs with
    | nil => simp [strLtChars] at h
    | cons b bs =>
      simp only [strLtChars] at h ⊢
      rcases Nat.lt_trichotomy a.toNat b.toNat with hab | hab | hab
      · rw [if_neg (by omega), if_pos hab]
      · rw [if_neg (by omega), if_neg (by omega)] at h
        rw [if_neg (by omega), if_neg (by omega)]
        exact ih bs h
      · rw [if_neg (by omega), if_pos hab] at h
        exact absurd h Bool.false_ne_true

theorem strLtChars_cotrans : ∀ as cs bs : List Char, strLtChars as cs = true →
    strLtChars as bs = true ∨ strLtChars bs cs = true := by
  intro as
  induction as with
  | nil =>
    intro cs bs h
    cases cs with
    | nil => simp [strLtChars] at h
    | cons c cs =>
      cases bs with
      | nil => exact Or.inr (by simp [strLtChars])
      | cons b bs => exact Or.inl (by simp [strLtChars])
  | cons a as ih =>
    intro cs bs h
    cases cs with
    | nil => simp [strLtChars] at h
    | cons c cs =>
      cases bs with
      | nil => exact Or.inr (by simp [strLtChars])
      | cons b bs =>
        simp only [strLtChars] at h ⊢
        rcases Nat.lt_trichotomy a.toNat b.toNat with hab | hab | hab
        · exact Or.inl (by rw [if_pos hab])
        · rcases Nat.lt_trichotomy a.toNat c.toNat with hac | hac | hac
          · exact Or.inr (by rw [if_pos (by omega)])
          · rw [if_neg (by omega), if_neg (by omega)] at h
            rcases ih cs bs h with h1 | h1
            · exact Or.inl (by rw [if_neg (by omega), if_neg (by omega)]; exact h1)
            · exact Or.inr (by rw [if_neg (by omega), if_neg (by omega)]; exact h1)
          · rw [if_neg (by omega), if_pos (by omega)] at h
            exact absurd h Bool.false_ne_true
        · rcases Nat.lt_trichotomy a.toNat c.toNat with hac | hac | hac
          · exact Or.inr (by rw [if_pos (by omega)])
          · exact Or.inr (by rw [if_pos (by omega)])
          · rw [if_neg (by omega), if_pos (by omega)] at h
            exact absurd h Bool.false_ne_true

instance : IsTotal String strLeRel := by
  constructor
  intro a b
  unfold strLeRel strLeB
  cases hb : strLtChars b.toList a.toList with
  | false => exact Or.inl rfl
  | true => exact Or.inr (by rw [strLtChars_asymm _ _ hb]; rfl)

instance : IsTrans String strLeRel := by
  constructor
  intro a b c hab hbc
  unfold strLeRel strLeB at hab hbc ⊢
  cases hca : strLtChars c.toList a.toList with
  | false => rfl
  | true =>
    exfalso
    rcases strLtChars_cotrans c.toList a.toList b.toList hca with h1 | h1
    · rw [h1] at hbc
      exact absurd hbc (by simp)
    · rw [h1] at hab
      exact absurd hab (by simp)

/-- C6: the turbo-profile comparison.  The remote side keeps the given order
of the remote list; the local side walks the bucket keys in ascending
lexical order (the sort is sorted under the string order and is a
permutation of the keys); the concrete example with remote pairs
(4, 2500) (2, 2800) and the buckets listed as bucket-1 then bucket-0 is a
match; and two pair lists compare as a match exactly when they are equal as
ordered lists. -/
theorem c6_turbo_profile :
    (actualTurbo [⟨4, 2500⟩, ⟨2, 2800⟩] = [(4, 2500), (2, 2800)]
     ∧ expTurbo [("bucket-1", ⟨"2", "2800"⟩), ("bucket-0", ⟨"4", "2500"⟩)]
         = .ok [(4, 2500), (2, 2800)]
     ∧ (compare (.vPairsII (actualTurbo [⟨4, 2500⟩, ⟨2, 2800⟩]))
          (.vPairsII [(4, 2500), (2, 2800)]) true).2 = false)
    ∧ (∀ lb : List (String × Bucket),
        List.Sorted strLeRel (sortStrings (lb.map Prod.fst))
        ∧ (sortStrings (lb.map Prod.fst)).Perm (lb.map Prod.fst))
    ∧ (∀ (a e : List (Int × Int)) (s : Bool),
        (compare (.vPairsII a) (.vPairsII e) s).2 = false ↔ a = e) := by
  refine ⟨⟨by decide, by decide, by decide⟩,
    fun lb => ⟨List.sorted_insertionSort strLeRel _, List.perm_insertionSort strLeRel _⟩,
    fun a e s => ?_⟩
  simp [compare]

end SstCompare
